import Mathlib

/-!
MCP3550/1/3 driver: decoding, voltage conversion and the conversion handshake.

A shallow embedding of `mcp3553.h` / `mcp3553.cpp`.

* `int32_t` values are integers; a signed operation whose exact result is not
  representable is undefined behaviour and yields `none`.
* `double` values are the rationals they denote; every floating-point operation
  rounds its exact result with `binary64.fl` (round to nearest, ties to even,
  53-bit significand).
* The bcm2835 peripheral library is the environment: each call is logged in a
  `World`, delays advance a fake clock, and the bytes shifted out by the chip
  are taken from the `World`.
-/

/-! ## Signed 32-bit integers -/

namespace int32

/-- Smallest `int32_t` value. -/
def MIN : Int := -2147483648

/-- Largest `int32_t` value. -/
def MAX : Int := 2147483647

/-- Result of a signed 32-bit operation whose exact value is `x`: signed overflow is
undefined behaviour, modelled as `none`. -/
def checked (x : Int) : Option Int :=
  if MIN ≤ x ∧ x ≤ MAX then some x else none

/-- The C++ expression `x << n` on a value that fits: multiplication by a power of two. -/
def shl (x : Int) (n : Nat) : Int := x * 2 ^ n

/-- Conversion of an `int32_t` to `uint32_t` (usual arithmetic conversions): modulo 2^32. -/
def to_uint32 (x : Int) : Int := x % 4294967296

/-- Conversion of a `uint32_t` value to `int32_t`: the value congruent modulo 2^32. -/
def of_uint32 (u : Int) : Int := if u ≤ MAX then u else u - 4294967296

end int32

/-! ## IEEE-754 binary64 (`double`) -/

namespace binary64

/-- Round a rational to the nearest integer, ties to the even neighbour. -/
def roundHalfEven (x : ℚ) : ℤ :=
  let f := ⌊x⌋
  let d := x - f
  if d < 1 / 2 then f
  else if 1 / 2 < d then f + 1
  else if f % 2 = 0 then f else f + 1

/-- Round an exact result to binary64: the unit in the last place is `2 ^ (e - 52)` where `e`
is the binade of `x`, clamped below at the subnormal exponent. Overflow to infinity is not
modelled; no value computed by the driver comes near `2 ^ 1024`. -/
def fl (x : ℚ) : ℚ :=
  if x = 0 then 0
  else
    let e := max (Int.log 2 |x|) (-1022)
    let ulp : ℚ := 2 ^ (e - 52)
    roundHalfEven (x / ulp) * ulp

/-- The conversion `(double)n` of an integer. -/
def ofInt (n : Int) : ℚ := fl n

/-- Floating-point multiplication. -/
def mul (a b : ℚ) : ℚ := fl (a * b)

/-- Floating-point division. -/
def div (a b : ℚ) : ℚ := fl (a / b)

end binary64

/-! ## `mcp3553.h`: constants -/

namespace mcp3553

/-- Device identifiers (`enum class IC`). -/
inductive IC where
  | MCP3550_50
  | MCP3550_60
  | MCP3551
  | MCP3553
  deriving DecidableEq, Repr

/-- Clock divider: 50 kHz on the RPi 4. -/
def CLK_DIVIDER : Nat := 10000

/-- GPIO 10 (MOSI), `RPI_V2_GPIO_P1_19`. -/
def MOSI_PIN : Nat := 10

/-- GPIO 09 (MISO), `RPI_V2_GPIO_P1_21`. -/
def MISO_PIN : Nat := 9

/-- GPIO 11 (CLK), `RPI_V2_GPIO_P1_23`. -/
def CLK_PIN : Nat := 11

/-- GPIO 07 (CE1), `RPI_V2_GPIO_P1_26`. -/
def CE1_PIN : Nat := 7

/-- GPIO 22 (user-selected CE pin), `RPI_V2_GPIO_P1_15`. -/
def CE2_PIN : Nat := 22

/-- Power-up to CS low, microseconds. -/
def tPUCSL : Nat := 20

/-- CS high to shutdown, microseconds. -/
def tCSHSD : Nat := 20

/-- Conversion time for the MCP3550-50, microseconds. -/
def tCONV_MCP3550_50 : Nat := 83000

/-- Conversion time for the MCP3550-60, microseconds. -/
def tCONV_MCP3550_60 : Nat := 69000

/-- Conversion time for the MCP3551, microseconds. -/
def tCONV_MCP3551 : Nat := 75000

/-- Conversion time for the MCP3553, microseconds. -/
def tCONV_MCP3553 : Nat := 19455

/-- Voltage reference, volts: the literal `2.500`, which is exactly representable. -/
def Vref : ℚ := 5 / 2

end mcp3553

/-! ## The bcm2835 peripheral library as an environment -/

namespace bcm2835

/-- Digital pin level: `LOW` / `HIGH`. -/
inductive Level where
  | LOW
  | HIGH
  deriving DecidableEq, Repr

/-- Pin function select: `BCM2835_GPIO_FSEL_INPT` / `BCM2835_GPIO_FSEL_OUTP`. -/
inductive FSel where
  | INPT
  | OUTP
  deriving DecidableEq, Repr

/-- SPI bit order. -/
inductive BitOrder where
  | LSBFIRST
  | MSBFIRST
  deriving DecidableEq, Repr

/-- SPI data mode; `MODE3` is CPOL = 1, CPHA = 1. -/
inductive DataMode where
  | MODE0
  | MODE1
  | MODE2
  | MODE3
  deriving DecidableEq, Repr

/-- SPI chip-select policy; `CS_NONE` leaves chip select to the caller. -/
inductive ChipSelect where
  | CS0
  | CS1
  | CS2
  | CS_NONE
  deriving DecidableEq, Repr

/-- The `CSPOL` bit of the SPI0 CS register. -/
def SPI0_CS_CSPOL : Nat := 64

/-- One call into the peripheral library, with its arguments. -/
inductive Call where
  | spi_begin
  | spi_end
  | spi_setBitOrder (order : BitOrder)
  | spi_setDataMode (mode : DataMode)
  | spi_setClockDivider (divider : Nat)
  | spi_chipSelect (cs : ChipSelect)
  | peri_set_bits_spi0_cs (value mask : Nat)
  | gpio_fsel (pin : Nat) (mode : FSel)
  | gpio_write (pin : Nat) (level : Level)
  | delayMicroseconds (micros : Nat)
  | spi_transfern (len : Nat)
  deriving DecidableEq, Repr

/-- The state of the environment. -/
structure World where
  /-- Calls made so far, oldest first. -/
  trace : List Call
  /-- Fake clock: microseconds elapsed in blocking delays. -/
  clock : Nat
  /-- Whether `bcm2835_spi_begin` succeeds (it fails without the needed privilege). -/
  spi_begin_ok : Bool
  /-- Bytes the chip will shift out on the coming transfers. -/
  rx : List Nat

/-- What a call can fail with. -/
inductive Fault where
  /-- A `std::runtime_error` was thrown. -/
  | runtime_error
  /-- Signed overflow. -/
  | undefined_behaviour
  deriving DecidableEq, Repr

/-- Computations against the peripheral: they may throw, and the world persists either way. -/
abbrev HwM := ExceptT Fault (StateM World)

/-- Append a call to the log. -/
def log (c : Call) : HwM Unit :=
  modify fun w => { w with trace := w.trace ++ [c] }

/-- Model of `bcm2835_spi_begin`: returns whether the bus could be acquired. -/
def bcm2835_spi_begin : HwM Bool := do
  log Call.spi_begin
  return (← get).spi_begin_ok

/-- Model of `bcm2835_spi_end`. -/
def bcm2835_spi_end : HwM Unit := log Call.spi_end

/-- Model of `bcm2835_spi_setBitOrder`. -/
def bcm2835_spi_setBitOrder (order : BitOrder) : HwM Unit := log (Call.spi_setBitOrder order)

/-- Model of `bcm2835_spi_setDataMode`. -/
def bcm2835_spi_setDataMode (mode : DataMode) : HwM Unit := log (Call.spi_setDataMode mode)

/-- Model of `bcm2835_spi_setClockDivider`. -/
def bcm2835_spi_setClockDivider (divider : Nat) : HwM Unit := log (Call.spi_setClockDivider divider)

/-- Model of `bcm2835_spi_chipSelect`. -/
def bcm2835_spi_chipSelect (cs : ChipSelect) : HwM Unit := log (Call.spi_chipSelect cs)

/-- Model of `bcm2835_peri_set_bits` on the SPI0 CS register. -/
def bcm2835_peri_set_bits_spi0_cs (value mask : Nat) : HwM Unit :=
  log (Call.peri_set_bits_spi0_cs value mask)

/-- Model of `bcm2835_gpio_fsel`. -/
def bcm2835_gpio_fsel (pin : Nat) (mode : FSel) : HwM Unit := log (Call.gpio_fsel pin mode)

/-- Model of `bcm2835_gpio_write`. -/
def bcm2835_gpio_write (pin : Nat) (level : Level) : HwM Unit := log (Call.gpio_write pin level)

/-- Model of `bcm2835_delayMicroseconds`: blocks, so the fake clock advances by the request. -/
def bcm2835_delayMicroseconds (micros : Nat) : HwM Unit := do
  log (Call.delayMicroseconds micros)
  modify fun w => { w with clock := w.clock + micros }

/-- Model of `bcm2835_spi_transfern`: clocks `len` bytes; returns the bytes received, each
an 8-bit quantity. A byte the chip does not supply reads as zero. -/
def bcm2835_spi_transfern (len : Nat) : HwM (List Nat) := do
  log (Call.spi_transfern len)
  let w ← get
  set { w with rx := w.rx.drop len }
  return (List.range len).map fun i => w.rx.getD i 0 % 256

end bcm2835

/-! ## `mcp3553.cpp`: the driver -/

/-- The class `MCP3553`: its two data members. -/
structure MCP3553 where
  /-- Chip-enable pin (`uint8_t`). -/
  _ce_pin : Nat
  /-- Conversion time in microseconds (`uint32_t`). -/
  _tCONV : Nat
  deriving DecidableEq, Repr

namespace MCP3553

open mcp3553 bcm2835

/-- Whether plain `char` is signed is fixed by the platform ABI, not by the source. -/
structure Platform where
  /-- True when plain `char` is a signed type. -/
  char_signed : Bool
  deriving DecidableEq, Repr

/-- The Raspberry Pi (ARM Linux, 32-bit and 64-bit): plain `char` is unsigned. -/
def raspberryPi : Platform := { char_signed := false }

/-- The value of a `char` object holding the received byte `b`. -/
def char_value (p : Platform) (b : Nat) : Int :=
  if p.char_signed ∧ 128 ≤ b then (b : Int) - 256 else (b : Int)

/-- The `switch` of the constructor: conversion times of chips vary. -/
def select_tCONV : IC → Nat
  | IC.MCP3550_50 => tCONV_MCP3550_50
  | IC.MCP3550_60 => tCONV_MCP3550_60
  | IC.MCP3551 => tCONV_MCP3551
  | IC.MCP3553 => tCONV_MCP3553

/-- The flag `ovl = reg & (1 << 23)`. -/
def ovl (reg : Int) : Bool := Int.land reg (int32.shl 1 23) != 0

/-- The flag `ovh = reg & (1 << 22)`. -/
def ovh (reg : Int) : Bool := Int.land reg (int32.shl 1 22) != 0

/-- `MCP3553::get_code`: the signed decimal code of a 24-bit digital output code. -/
def get_code (reg : Int) : Option Int :=
  if ovh reg then
    -- Positive overflow: keep lower 22 bits.
    some (Int.land reg 0x3FFFFF)
  else if ovl reg then do
    -- Negative overflow.
    let code := Int.land reg 0x3FFFFF
    let d ← int32.checked (int32.shl 1 22 - code)
    int32.checked (-d)
  else if Int.land reg (int32.shl 1 21) != 0 then do
    -- Negative value.
    let d ← int32.checked (int32.shl 1 22 - reg)
    int32.checked (-d)
  else
    some reg

/-- `MCP3553::get_value(int32_t)`: the voltage for a digital output code. -/
def get_value (reg : Int) : Option ℚ := do
  let LSB := binary64.div Vref (binary64.ofInt 0x200000)
  let code ← get_code reg
  let voltage := binary64.mul (binary64.ofInt code) LSB
  return voltage

/-- `MCP3553::startup`: wait for power up. -/
def startup : HwM Unit := do
  bcm2835_delayMicroseconds 300
  bcm2835_delayMicroseconds tPUCSL

/-- `MCP3553::spi_begin`. -/
def spi_begin : HwM Unit := do
  if !(← bcm2835_spi_begin) then
    throw Fault.runtime_error
  bcm2835_spi_setBitOrder BitOrder.MSBFIRST
  bcm2835_spi_setDataMode DataMode.MODE3
  bcm2835_spi_setClockDivider CLK_DIVIDER
  bcm2835_spi_chipSelect ChipSelect.CS_NONE
  -- Set CSPOL to LOW.
  bcm2835_peri_set_bits_spi0_cs 0 SPI0_CS_CSPOL

/-- `MCP3553::spi_end`. -/
def spi_end : HwM Unit := bcm2835_spi_end

/-- The constructor `MCP3553::MCP3553(ce_pin, ic)`. -/
def new (ce_pin : Nat) (ic : IC) : HwM MCP3553 := do
  let self : MCP3553 := { _ce_pin := ce_pin, _tCONV := select_tCONV ic }
  spi_begin
  startup
  return self

/-- The destructor. -/
def delete (_self : MCP3553) : HwM Unit := spi_end

/-- The expression
`((int32_t)buffer[0] << 16) | ((int32_t)buffer[1] << 8) | (uint32_t)buffer[2]`
stored into an `int32_t`. -/
def assemble (p : Platform) (b0 b1 b2 : Nat) : Int :=
  let hi := Int.lor (int32.shl (char_value p b0) 16) (int32.shl (char_value p b1) 8)
  let all := Int.lor (int32.to_uint32 hi) (int32.to_uint32 (char_value p b2))
  int32.of_uint32 all

/-- `MCP3553::read_register`. -/
def read_register (p : Platform) (self : MCP3553) : HwM Int := do
  spi_end
  -- Temporarily switch MISO and CE pins to be normal GPIO pins.
  bcm2835_gpio_fsel self._ce_pin FSel.OUTP
  bcm2835_gpio_fsel MISO_PIN FSel.INPT
  -- Go into shutdown mode.
  bcm2835_gpio_write self._ce_pin Level.HIGH
  bcm2835_delayMicroseconds tCSHSD
  -- Trigger single conversion.
  bcm2835_gpio_write self._ce_pin Level.LOW
  bcm2835_delayMicroseconds (self._tCONV / 2)
  bcm2835_gpio_write self._ce_pin Level.HIGH
  bcm2835_delayMicroseconds (self._tCONV / 2)
  -- Switch back to SPI mode.
  spi_begin
  -- Read the bytes in.
  bcm2835_gpio_fsel self._ce_pin FSel.OUTP
  bcm2835_gpio_write self._ce_pin Level.LOW
  let buffer ← bcm2835_spi_transfern 3
  bcm2835_gpio_write self._ce_pin Level.HIGH
  let value := assemble p (buffer.getD 0 0) (buffer.getD 1 0) (buffer.getD 2 0)
  return value

/-- `MCP3553::get_value() const`: read the register and convert it. -/
def get_value_read (p : Platform) (self : MCP3553) : HwM ℚ := do
  let reg ← read_register p self
  match get_value reg with
  | some v => return v
  | none => throw Fault.undefined_behaviour

/-! ## Observers on the call log -/

/-- The calls made by `m` when started in world `w`. -/
def calls {α : Type} (m : HwM α) (w : World) : List Call :=
  ((m.run w).2.trace).drop w.trace.length

/-- The fake-clock time `m` takes when started in world `w`. -/
def elapsed {α : Type} (m : HwM α) (w : World) : Nat :=
  (m.run w).2.clock - w.clock

/-- Sum of the delays requested in a list of calls. -/
def total_delay : List Call → Nat
  | [] => 0
  | Call.delayMicroseconds micros :: cs => micros + total_delay cs
  | _ :: cs => total_delay cs

/-- Number of SPI transfers in a list of calls. -/
def transfer_count : List Call → Nat
  | [] => 0
  | Call.spi_transfern _ :: cs => 1 + transfer_count cs
  | _ :: cs => transfer_count cs

/-- Level last written to `pin`, starting from `lv`. -/
def level_after (pin : Nat) (lv : Option Level) : List Call → Option Level
  | [] => lv
  | Call.gpio_write q l :: cs => level_after pin (if q = pin then some l else lv) cs
  | _ :: cs => level_after pin lv cs

/-- Every transfer in the list happens with `pin` driven low and the SPI bus begun, where
`lv` and `spi` are the level of `pin` and the state of the bus before the list. -/
def transfers_guarded (pin : Nat) (lv : Option Level) (spi : Bool) : List Call → Bool
  | [] => true
  | Call.spi_transfern _ :: cs =>
      decide (lv = some Level.LOW) && spi && transfers_guarded pin lv spi cs
  | Call.gpio_write q l :: cs => transfers_guarded pin (if q = pin then some l else lv) spi cs
  | Call.spi_begin :: cs => transfers_guarded pin lv true cs
  | Call.spi_end :: cs => transfers_guarded pin lv false cs
  | _ :: cs => transfers_guarded pin lv spi cs

end MCP3553

/-! ## Exactness of binary64 rounding on small dyadic numbers -/

namespace binary64

theorem roundHalfEven_intCast (n : ℤ) : roundHalfEven (n : ℚ) = n := by
  unfold roundHalfEven
  simp

/-- A number `n * 2 ^ k` whose significand `n` fits in 53 bits is a binary64 value: rounding
leaves it unchanged. -/
theorem fl_exact (n k : ℤ) (hn : |n| < 2 ^ 53) (hk : -1074 ≤ k) :
    fl ((n : ℚ) * 2 ^ k) = (n : ℚ) * 2 ^ k := by
  unfold fl
  by_cases h0 : (n : ℚ) * 2 ^ k = 0
  · simp [h0]
  · rw [if_neg h0]
    have h2pos : ∀ j : ℤ, (0 : ℚ) < 2 ^ j := fun j => zpow_pos (by norm_num) j
    have hpos : (0 : ℚ) < |(n : ℚ) * 2 ^ k| := abs_pos.mpr h0
    have hle := Int.zpow_log_le_self (R := ℚ) (b := 2) (by norm_num) hpos
    have habs : |(n : ℚ) * 2 ^ k| = |(n : ℚ)| * 2 ^ k := by
      rw [abs_mul, abs_of_pos (h2pos k)]
    have hnq : |(n : ℚ)| < 2 ^ (53 : ℤ) := by
      have h : ((|n| : ℤ) : ℚ) < ((2 ^ 53 : ℤ) : ℚ) := by exact_mod_cast hn
      rw [Int.cast_abs] at h
      calc |(n : ℚ)| < ((2 ^ 53 : ℤ) : ℚ) := h
        _ = 2 ^ (53 : ℤ) := by norm_num
    have hlt : |(n : ℚ) * 2 ^ k| < 2 ^ (53 + k) := by
      rw [habs, zpow_add₀ (by norm_num : (2 : ℚ) ≠ 0)]
      exact mul_lt_mul_of_pos_right hnq (h2pos k)
    have he : Int.log 2 |(n : ℚ) * 2 ^ k| < 53 + k := by
      have h2 : ((2 : ℕ) : ℚ) ^ Int.log 2 |(n : ℚ) * 2 ^ k| < 2 ^ (53 + k) :=
        lt_of_le_of_lt hle hlt
      have h3 : (2 : ℚ) ^ Int.log 2 |(n : ℚ) * 2 ^ k| < 2 ^ (53 + k) := by simpa using h2
      exact (zpow_lt_zpow_iff_right₀ (by norm_num : (1 : ℚ) < 2)).mp h3
    generalize Int.log 2 |(n : ℚ) * 2 ^ k| = e at he
    -- the scaled significand is an integer
    obtain ⟨t, ht⟩ : ∃ t : ℕ, (t : ℤ) = k - (max e (-1022) - 52) :=
      ⟨(k - (max e (-1022) - 52)).toNat, Int.toNat_of_nonneg (by omega)⟩
    have hdiv : (n : ℚ) * 2 ^ k / 2 ^ (max e (-1022) - 52) = ((n * 2 ^ t : ℤ) : ℚ) := by
      rw [mul_div_assoc, ← zpow_sub₀ (by norm_num : (2 : ℚ) ≠ 0), ← ht]
      push_cast
      rw [zpow_natCast]
    simp only []
    rw [hdiv, roundHalfEven_intCast]
    push_cast
    rw [mul_assoc, ← zpow_natCast, ht, ← zpow_add₀ (by norm_num : (2 : ℚ) ≠ 0)]
    congr 2
    omega

theorem ofInt_exact (n : ℤ) (hn : |n| < 2 ^ 53) : ofInt n = (n : ℚ) := by
  have h := fl_exact n 0 hn (by norm_num)
  simpa [ofInt] using h

end binary64

/-! ## Arithmetic reading of the bit operations -/

namespace MCP3553

open mcp3553 bcm2835

theorem land_natCast (n m : Nat) : Int.land (n : Int) (m : Int) = ((n &&& m : Nat) : Int) := rfl

theorem lor_natCast (n m : Nat) : Int.lor (n : Int) (m : Int) = ((n ||| m : Nat) : Int) := rfl

theorem testBit_natCast (n k : Nat) : Int.testBit (n : Int) k = Nat.testBit n k := rfl

theorem nat_and_two_pow (n i : Nat) : n &&& 2 ^ i = if n.testBit i then 2 ^ i else 0 := by
  apply Nat.eq_of_testBit_eq
  intro j
  rw [Nat.testBit_and, Nat.testBit_two_pow]
  by_cases h : i = j
  · subst h
    cases hb : n.testBit i <;> simp [Nat.testBit_two_pow_self]
  · cases hb : n.testBit i <;> simp [h, Nat.testBit_two_pow]

theorem land_shl_one (n i : Nat) :
    (Int.land (n : Int) (int32.shl 1 i) != 0) = decide (n / 2 ^ i % 2 = 1) := by
  have hs : int32.shl 1 i = ((2 ^ i : Nat) : Int) := by simp [int32.shl]
  rw [hs, land_natCast, nat_and_two_pow, Nat.testBit_to_div_mod]
  by_cases h : n / 2 ^ i % 2 = 1
  · simp [h]
  · simp [h]

theorem land_mask22 (n : Nat) :
    Int.land (n : Int) 0x3FFFFF = ((n % 4194304 : Nat) : Int) := by
  have h : (0x3FFFFF : Int) = ((2 ^ 22 - 1 : Nat) : Int) := by norm_num
  rw [h, land_natCast, Nat.and_pow_two_sub_one_eq_mod]

theorem ovh_natCast (n : Nat) : ovh (n : Int) = decide (n / 4194304 % 2 = 1) := by
  unfold ovh
  rw [land_shl_one]
  norm_num

theorem ovl_natCast (n : Nat) : ovl (n : Int) = decide (n / 8388608 % 2 = 1) := by
  unfold ovl
  rw [land_shl_one]
  norm_num

theorem testBit_natCast_iff (n k : Nat) :
    Int.testBit (n : Int) k = decide (n / 2 ^ k % 2 = 1) := by
  rw [testBit_natCast, Nat.testBit_to_div_mod]

theorem checked_of_range {x : Int} (h1 : -2147483648 ≤ x) (h2 : x ≤ 2147483647) :
    int32.checked x = some x := by
  unfold int32.checked int32.MIN int32.MAX
  rw [if_pos ⟨h1, h2⟩]

theorem neg_sub_checked {c : Int} (h1 : 0 ≤ c) (h2 : c < 16777216) :
    (do let d ← int32.checked (4194304 - c); int32.checked (-d)) = some (c - 4194304) := by
  rw [checked_of_range (by omega) (by omega)]
  show int32.checked (-(4194304 - c)) = _
  rw [checked_of_range (by omega) (by omega)]
  congr 1
  omega

/-- The decoder on a 24-bit value, with every bit operation read arithmetically. -/
theorem get_code_natCast (n : Nat) (h : n < 16777216) :
    get_code (n : Int) = some
      (if n / 4194304 % 2 = 1 then ((n % 4194304 : Nat) : Int)
       else if n / 8388608 % 2 = 1 then ((n % 4194304 : Nat) : Int) - 4194304
       else if n / 2097152 % 2 = 1 then (n : Int) - 4194304
       else (n : Int)) := by
  unfold get_code
  rw [ovh_natCast, ovl_natCast, land_shl_one, land_mask22]
  have h22 : int32.shl 1 22 = 4194304 := by norm_num [int32.shl]
  have h21 : 2 ^ 21 = 2097152 := by norm_num
  rw [h22, h21]
  by_cases h1 : n / 4194304 % 2 = 1
  · simp [h1]
  · by_cases h2 : n / 8388608 % 2 = 1
    · simp only [h1, h2, decide_True, decide_False, if_true, if_false, Bool.false_eq_true]
      exact neg_sub_checked (by omega) (by omega)
    · by_cases h3 : n / 2097152 % 2 = 1
      · simp only [h1, h2, h3, decide_True, decide_False, if_true, if_false,
          Bool.false_eq_true]
        exact neg_sub_checked (by omega) (by omega)
      · simp only [h1, h2, h3, decide_True, decide_False, if_true, if_false,
          Bool.false_eq_true]

theorem nat_ldiff_eq (a b : Nat) : Nat.ldiff a b = a ^^^ (a &&& b) := by
  apply Nat.eq_of_testBit_eq
  intro i
  rw [Nat.testBit_ldiff, Nat.testBit_xor, Nat.testBit_and]
  cases a.testBit i <;> cases b.testBit i <;> rfl

theorem land_negSucc_natCast (m n : Nat) :
    Int.land (Int.negSucc m) (n : Int) = ((n ^^^ (n &&& m) : Nat) : Int) := by
  show ((Nat.ldiff n m : Nat) : Int) = _
  rw [nat_ldiff_eq]

/-- Outside the 24-bit range the decoder can overflow: for the `int32_t` value 0x80200000
(bits 31 and 21 set) the subtraction `(1 << 22) - code` is not representable. -/
theorem get_code_overflow_example : get_code (-2145386496) = none := by
  have e : (-2145386496 : Int) = Int.negSucc 2145386495 := rfl
  have l23 : Int.land (-2145386496) (int32.shl 1 23) = 0 := by
    rw [e]
    exact land_negSucc_natCast 2145386495 8388608
  have l22 : Int.land (-2145386496) (int32.shl 1 22) = 0 := by
    rw [e]
    exact land_negSucc_natCast 2145386495 4194304
  have l21 : Int.land (-2145386496) (int32.shl 1 21) = 2097152 := by
    rw [e]
    exact land_negSucc_natCast 2145386495 2097152
  unfold get_code ovh ovl
  rw [l23, l22, l21]
  decide

/-! ## The code decoder -/

/-- C1: with both overflow flags clear the decoder sign-extends the 22-bit field: bit 21 clear
gives the raw value itself, in [0, 2097151]; bit 21 set gives raw - 4194304, in
[-2097152, -1]. The four values asserted by the test are included. -/
theorem get_code_normal_range (raw : Int) (h0 : 0 ≤ raw) (h24 : raw < 16777216)
    (hovl : Int.testBit raw 23 = false) (hovh : Int.testBit raw 22 = false) :
    (Int.testBit raw 21 = false → get_code raw = some raw ∧ 0 ≤ raw ∧ raw ≤ 2097151) ∧
    (Int.testBit raw 21 = true →
      get_code raw = some (raw - 4194304) ∧ -2097152 ≤ raw - 4194304 ∧ raw - 4194304 ≤ -1) ∧
    get_code 0x1FFFFF = some 2097151 ∧ get_code 0x000000 = some 0 ∧
    get_code 0x3FFFFF = some (-1) ∧ get_code 0x200000 = some (-2097152) := by
  obtain ⟨n, rfl⟩ := Int.eq_ofNat_of_zero_le h0
  have hn : n < 16777216 := by omega
  rw [testBit_natCast_iff] at hovl hovh
  simp only [decide_eq_false_iff_not] at hovl hovh
  norm_num at hovl hovh
  refine ⟨?_, ?_, by decide, by decide, by decide, by decide⟩
  · intro h21
    rw [testBit_natCast_iff] at h21
    simp only [decide_eq_false_iff_not] at h21
    norm_num at h21
    rw [get_code_natCast n hn]
    refine ⟨?_, by omega, by omega⟩
    rw [if_neg (by omega), if_neg (by omega), if_neg (by omega)]
  · intro h21
    rw [testBit_natCast_iff] at h21
    simp only [decide_eq_true_eq] at h21
    norm_num at h21
    rw [get_code_natCast n hn]
    refine ⟨?_, by omega, by omega⟩
    rw [if_neg (by omega), if_neg (by omega), if_pos (by omega)]

/-- Witness for C1: 0x3FFFFF has both flags clear and bit 21 set, and decodes to -1. -/
theorem get_code_normal_range_witness :
    (0 : Int) ≤ 0x3FFFFF ∧ (0x3FFFFF : Int) < 16777216 ∧
    Int.testBit 0x3FFFFF 23 = false ∧ Int.testBit 0x3FFFFF 22 = false ∧
    Int.testBit 0x3FFFFF 21 = true ∧
    (get_code 0x3FFFFF = some (0x3FFFFF - 4194304) ∧
      -2097152 ≤ (0x3FFFFF : Int) - 4194304 ∧ (0x3FFFFF : Int) - 4194304 ≤ -1) :=
  ⟨by decide, by decide, by decide, by decide, by decide,
    (get_code_normal_range 0x3FFFFF (by decide) (by decide) (by decide) (by decide)).2.1
      (by decide)⟩

/-- C2: with OVH (bit 22) set, whatever OVL (bit 23) is, the decoder returns the raw value
masked to its lower 22 bits, so that positive overflow takes priority when both flags are
reported; 0x600000 decodes to 2097152 and 0x600001 to 2097153. -/
theorem get_code_positive_overflow (raw : Int) (h0 : 0 ≤ raw) (h24 : raw < 16777216)
    (hovh : Int.testBit raw 22 = true) :
    get_code raw = some (Int.land raw 0x3FFFFF) ∧
    Int.land raw 0x3FFFFF = raw % 4194304 ∧
    get_code 0x600000 = some 2097152 ∧ get_code 0x600001 = some 2097153 := by
  obtain ⟨n, rfl⟩ := Int.eq_ofNat_of_zero_le h0
  have hn : n < 16777216 := by omega
  rw [testBit_natCast_iff] at hovh
  simp only [decide_eq_true_eq] at hovh
  norm_num at hovh
  refine ⟨?_, ?_, by decide, by decide⟩
  · rw [get_code_natCast n hn, if_pos hovh, land_mask22]
  · rw [land_mask22]
    omega

/-- Witness for C2: 0xE00001 has both OVH and OVL set and decodes as a positive overflow. -/
theorem get_code_positive_overflow_witness :
    (0 : Int) ≤ 0xE00001 ∧ (0xE00001 : Int) < 16777216 ∧
    Int.testBit 0xE00001 22 = true ∧ Int.testBit 0xE00001 23 = true ∧
    get_code 0xE00001 = some (Int.land 0xE00001 0x3FFFFF) ∧
    Int.land 0xE00001 0x3FFFFF = 2097153 :=
  ⟨by decide, by decide, by decide, by decide,
    (get_code_positive_overflow 0xE00001 (by decide) (by decide) (by decide)).1, by decide⟩

/-- C3: with OVL (bit 23) set and OVH (bit 22) clear the decoder returns
-(4194304 - (raw & 0x3FFFFF)); 0x9FFFFF decodes to -2097153 and 0x9FFFFE to -2097154. -/
theorem get_code_negative_overflow (raw : Int) (h0 : 0 ≤ raw) (h24 : raw < 16777216)
    (hovl : Int.testBit raw 23 = true) (hovh : Int.testBit raw 22 = false) :
    get_code raw = some (-(4194304 - Int.land raw 0x3FFFFF)) ∧
    Int.land raw 0x3FFFFF = raw % 4194304 ∧
    get_code 0x9FFFFF = some (-2097153) ∧ get_code 0x9FFFFE = some (-2097154) := by
  obtain ⟨n, rfl⟩ := Int.eq_ofNat_of_zero_le h0
  have hn : n < 16777216 := by omega
  rw [testBit_natCast_iff] at hovl hovh
  simp only [decide_eq_true_eq, decide_eq_false_iff_not] at hovl hovh
  norm_num at hovl hovh
  refine ⟨?_, ?_, by decide, by decide⟩
  · rw [get_code_natCast n hn, if_neg (by omega), if_pos hovl, land_mask22]
    congr 1
    omega
  · rw [land_mask22]
    omega

/-- Witness for C3: 0x9FFFFE has OVL set and OVH clear. -/
theorem get_code_negative_overflow_witness :
    (0 : Int) ≤ 0x9FFFFE ∧ (0x9FFFFE : Int) < 16777216 ∧
    Int.testBit 0x9FFFFE 23 = true ∧ Int.testBit 0x9FFFFE 22 = false ∧
    get_code 0x9FFFFE = some (-(4194304 - Int.land 0x9FFFFE 0x3FFFFF)) :=
  ⟨by decide, by decide, by decide, by decide,
    (get_code_negative_overflow 0x9FFFFE (by decide) (by decide) (by decide) (by decide)).1⟩

/-- C5: the decoder is defined on every 24-bit input (no operation overflows) and its result
lies in the extended range [-4194304, 4194304]. -/
theorem get_code_total_bounded (raw : Int) (h0 : 0 ≤ raw) (h24 : raw < 16777216) :
    ∃ code, get_code raw = some code ∧ -4194304 ≤ code ∧ code ≤ 4194304 := by
  obtain ⟨n, rfl⟩ := Int.eq_ofNat_of_zero_le h0
  have hn : n < 16777216 := by omega
  refine ⟨_, get_code_natCast n hn, ?_, ?_⟩ <;> split_ifs <;> omega

/-- Witness for C5: the largest 24-bit value. -/
theorem get_code_total_bounded_witness :
    (0 : Int) ≤ 0xFFFFFF ∧ (0xFFFFFF : Int) < 16777216 ∧
    ∃ code, get_code 0xFFFFFF = some code ∧ -4194304 ≤ code ∧ code ≤ 4194304 :=
  ⟨by decide, by decide, get_code_total_bounded 0xFFFFFF (by decide) (by decide)⟩

/-- C6 as stated fails: 0x1FFFFF < 0x200000 lie in the same overflow regime (both flags
clear) yet decode to 2097151 and -2097152. -/
theorem get_code_not_increasing_across_sign_bit :
    (0x1FFFFF : Int) < 0x200000 ∧
    ovl 0x1FFFFF = ovl 0x200000 ∧ ovh 0x1FFFFF = ovh 0x200000 ∧
    Int.testBit 0x1FFFFF 23 = Int.testBit 0x200000 23 ∧
    Int.testBit 0x1FFFFF 22 = Int.testBit 0x200000 22 ∧
    get_code 0x1FFFFF = some 2097151 ∧ get_code 0x200000 = some (-2097152) ∧
    ¬ ((2097151 : Int) < -2097152) := by
  decide

/-- C6, amended: the decoder is strictly increasing on 24-bit values a < b that agree on OVL
and OVH and, when both flags are clear, also on bit 21 (the sign bit of the 22-bit field). -/
theorem get_code_strictMono_in_regime (a b : Int) (h0 : 0 ≤ a) (hab : a < b)
    (h24 : b < 16777216)
    (hl : Int.testBit a 23 = Int.testBit b 23) (hh : Int.testBit a 22 = Int.testBit b 22)
    (hs : Int.testBit a 23 = false → Int.testBit a 22 = false →
      Int.testBit a 21 = Int.testBit b 21) :
    ∃ ca cb, get_code a = some ca ∧ get_code b = some cb ∧ ca < cb := by
  obtain ⟨n, rfl⟩ := Int.eq_ofNat_of_zero_le h0
  obtain ⟨m, rfl⟩ := Int.eq_ofNat_of_zero_le (le_trans h0 (le_of_lt hab))
  have hn : n < 16777216 := by omega
  have hm : m < 16777216 := by omega
  have hnm : n < m := by omega
  simp only [testBit_natCast_iff, decide_eq_decide, decide_eq_false_iff_not] at hl hh hs
  norm_num at hl hh hs
  refine ⟨_, _, get_code_natCast n hn, get_code_natCast m hm, ?_⟩
  by_cases h1 : n / 4194304 % 2 = 1
  · have h1b : m / 4194304 % 2 = 1 := hh.mp h1
    rw [if_pos h1, if_pos h1b]
    omega
  · have h1b : ¬ m / 4194304 % 2 = 1 := fun h => h1 (hh.mpr h)
    rw [if_neg h1, if_neg h1b]
    by_cases h2 : n / 8388608 % 2 = 1
    · have h2b : m / 8388608 % 2 = 1 := hl.mp h2
      rw [if_pos h2, if_pos h2b]
      omega
    · have h2b : ¬ m / 8388608 % 2 = 1 := fun h => h2 (hl.mpr h)
      rw [if_neg h2, if_neg h2b]
      have h3 := hs (by omega) (by omega)
      by_cases h4 : n / 2097152 % 2 = 1
      · rw [if_pos h4, if_pos (h3.mp h4)]
        omega
      · rw [if_neg h4, if_neg (fun h => h4 (h3.mpr h))]
        omega

/-- Witness for C6, amended: 0x200000 < 0x3FFFFF, both with clear flags and bit 21 set. -/
theorem get_code_strictMono_in_regime_witness :
    (0 : Int) ≤ 0x200000 ∧ (0x200000 : Int) < 0x3FFFFF ∧ (0x3FFFFF : Int) < 16777216 ∧
    ∃ ca cb, get_code 0x200000 = some ca ∧ get_code 0x3FFFFF = some cb ∧ ca < cb :=
  ⟨by decide, by decide, by decide,
    get_code_strictMono_in_regime 0x200000 0x3FFFFF (by decide) (by decide) (by decide)
      (by decide) (by decide) (fun _ _ => by decide)⟩

/-! ## The voltage converter -/

/-- The least significant bit, `Vref / (double)0x200000`, is computed exactly. -/
theorem LSB_exact :
    binary64.div Vref (binary64.ofInt 0x200000) = 5 / 4194304 := by
  rw [binary64.ofInt_exact _ (by norm_num)]
  have h := binary64.fl_exact 5 (-22) (by norm_num) (by norm_num)
  have e : ((5 : ℤ) : ℚ) * 2 ^ (-22 : ℤ) = 5 / 4194304 := by norm_num
  rw [e] at h
  unfold binary64.div Vref
  norm_num
  exact h

/-- Whenever the decoder returns a code, the conversion to volts is computed without any
rounding error. -/
theorem get_value_of_code (reg code : Int) (hc : get_code reg = some code)
    (hb : |code| ≤ 2147483648) :
    get_value reg = some ((code : ℚ) * 5 / 4194304) := by
  unfold get_value
  rw [hc, LSB_exact]
  show some (binary64.mul (binary64.ofInt code) (5 / 4194304)) = _
  rw [binary64.ofInt_exact code (by omega)]
  have h5 : |code * 5| < 2 ^ 53 := by
    rw [abs_mul]
    norm_num
    omega
  have h := binary64.fl_exact (code * 5) (-22) h5 (by norm_num)
  have e : ((code * 5 : ℤ) : ℚ) * 2 ^ (-22 : ℤ) = (code : ℚ) * (5 / 4194304) := by
    push_cast
    norm_num
    ring
  rw [e] at h
  unfold binary64.mul
  rw [h]
  congr 1
  ring

/-- C4: for every 24-bit register value the static get_value equals
get_code(reg) * (Vref / 2097152) exactly, with Vref = 2.5, that is get_code(reg) * 5 / 4194304
as a rational; the seven voltages asserted by the test follow. -/
theorem get_value_exact (reg : Int) (h0 : 0 ≤ reg) (h24 : reg < 16777216) :
    (∃ code, get_code reg = some code ∧
      get_value reg = some ((code : ℚ) * (Vref / 2097152)) ∧
      (code : ℚ) * (Vref / 2097152) = (code : ℚ) * 5 / 4194304) ∧
    get_value 0x600001 = some (Vref + Vref / 2097152) ∧
    get_value 0x600000 = some Vref ∧
    get_value 0x1FFFFF = some (Vref - Vref / 2097152) ∧
    get_value 0x000000 = some 0 ∧
    get_value 0x3FFFFF = some (-(Vref / 2097152)) ∧
    get_value 0x200000 = some (-Vref) ∧
    get_value 0x9FFFFF = some (-Vref - Vref / 2097152) := by
  refine ⟨?_, ?_, ?_, ?_, ?_, ?_, ?_, ?_⟩
  · obtain ⟨n, rfl⟩ := Int.eq_ofNat_of_zero_le h0
    have hn : n < 16777216 := by omega
    have hc := get_code_natCast n hn
    refine ⟨_, hc, ?_, ?_⟩
    · rw [get_value_of_code _ _ hc (by rw [abs_le]; constructor <;> split_ifs <;> omega)]
      congr 1
      unfold Vref
      ring
    · unfold Vref
      ring
  · rw [get_value_of_code 0x600001 2097153 (by decide) (by norm_num)]
    norm_num [Vref]
  · rw [get_value_of_code 0x600000 2097152 (by decide) (by norm_num)]
    norm_num [Vref]
  · rw [get_value_of_code 0x1FFFFF 2097151 (by decide) (by norm_num)]
    norm_num [Vref]
  · rw [get_value_of_code 0x000000 0 (by decide) (by norm_num)]
    norm_num
  · rw [get_value_of_code 0x3FFFFF (-1) (by decide) (by norm_num)]
    norm_num [Vref]
  · rw [get_value_of_code 0x200000 (-2097152) (by decide) (by norm_num)]
    norm_num [Vref]
  · rw [get_value_of_code 0x9FFFFF (-2097153) (by decide) (by norm_num)]
    norm_num [Vref]

/-- Witness for C4: the register value 0x9FFFFE. -/
theorem get_value_exact_witness :
    (0 : Int) ≤ 0x9FFFFE ∧ (0x9FFFFE : Int) < 16777216 ∧
    ∃ code, get_code 0x9FFFFE = some code ∧
      get_value 0x9FFFFE = some ((code : ℚ) * (Vref / 2097152)) ∧
      (code : ℚ) * (Vref / 2097152) = (code : ℚ) * 5 / 4194304 :=
  ⟨by decide, by decide, (get_value_exact 0x9FFFFE (by decide) (by decide)).1⟩

/-- C8 as stated fails: the 24-bit value 0x7FFFFF converts to 20971515 / 4194304 volts, just
under 5 V, which is more than 1.12 * Vref = 2.8 V. -/
theorem get_value_exceeds_overrange :
    (0 : Int) ≤ 0x7FFFFF ∧ (0x7FFFFF : Int) < 16777216 ∧
    get_value 0x7FFFFF = some (20971515 / 4194304) ∧
    ¬ (|(20971515 / 4194304 : ℚ)| ≤ 112 / 100 * Vref) := by
  refine ⟨by decide, by decide, ?_, ?_⟩
  · rw [get_value_of_code 0x7FFFFF 4194303 (by decide) (by norm_num)]
    norm_num
  · rw [abs_of_pos (by norm_num)]
    norm_num [Vref]

/-- C8, amended: for every 24-bit register value the static get_value returns a voltage of
magnitude at most 2 * Vref (5 V); the magnitude is at most 1.12 * Vref exactly when the
decoded code has magnitude at most 2348810, and at most Vref when both overflow flags are
clear. -/
theorem get_value_range (reg : Int) (h0 : 0 ≤ reg) (h24 : reg < 16777216) :
    ∃ code v, get_code reg = some code ∧ get_value reg = some v ∧
      |v| ≤ 2 * Vref ∧
      (|v| ≤ 112 / 100 * Vref ↔ |code| ≤ 2348810) ∧
      (Int.testBit reg 23 = false → Int.testBit reg 22 = false → |v| ≤ Vref) := by
  obtain ⟨n, rfl⟩ := Int.eq_ofNat_of_zero_le h0
  have hn : n < 16777216 := by omega
  have hc := get_code_natCast n hn
  have hflags : Int.testBit (n : Int) 23 = false → Int.testBit (n : Int) 22 = false →
      n < 4194304 := by
    intro h23 h22
    rw [testBit_natCast_iff] at h23 h22
    simp only [decide_eq_false_iff_not] at h23 h22
    norm_num at h23 h22
    omega
  obtain ⟨code, hc, hlo, hhi, hin⟩ : ∃ code, get_code (n : Int) = some code ∧
      -4194304 ≤ code ∧ code ≤ 4194303 ∧
      (n < 4194304 → -2097152 ≤ code ∧ code ≤ 2097151) :=
    ⟨_, get_code_natCast n hn, by split_ifs <;> omega, by split_ifs <;> omega,
      by intro _; constructor <;> split_ifs <;> omega⟩
  have hv := get_value_of_code _ _ hc (by rw [abs_le]; constructor <;> omega)
  have hloq : (-4194304 : ℚ) ≤ (code : ℚ) := by exact_mod_cast hlo
  have hhiq : (code : ℚ) ≤ 4194303 := by exact_mod_cast hhi
  refine ⟨code, _, hc, hv, ?_, ?_, ?_⟩
  · rw [abs_le]
    unfold Vref
    constructor <;> linarith
  · rw [abs_le, abs_le]
    unfold Vref
    constructor
    · rintro ⟨h1, h2⟩
      have h1q : (-58720256 : ℚ) ≤ (code : ℚ) * 25 := by linarith
      have h2q : (code : ℚ) * 25 ≤ 58720256 := by linarith
      have h1z : (-58720256 : ℤ) ≤ code * 25 := by exact_mod_cast h1q
      have h2z : code * 25 ≤ (58720256 : ℤ) := by exact_mod_cast h2q
      constructor <;> omega
    · rintro ⟨h1, h2⟩
      have h1q : (-2348810 : ℚ) ≤ (code : ℚ) := by exact_mod_cast h1
      have h2q : (code : ℚ) ≤ 2348810 := by exact_mod_cast h2
      constructor <;> linarith
  · intro h23 h22
    obtain ⟨h1, h2⟩ := hin (hflags h23 h22)
    have h1q : (-2097152 : ℚ) ≤ (code : ℚ) := by exact_mod_cast h1
    have h2q : (code : ℚ) ≤ 2097151 := by exact_mod_cast h2
    rw [abs_le]
    unfold Vref
    constructor <;> linarith

/-- Witness for C8, amended: the register value 0x800000 reaches -2 * Vref. -/
theorem get_value_range_witness :
    (0 : Int) ≤ 0x800000 ∧ (0x800000 : Int) < 16777216 ∧
    ∃ code v, get_code 0x800000 = some code ∧ get_value 0x800000 = some v ∧
      |v| ≤ 2 * Vref ∧
      (|v| ≤ 112 / 100 * Vref ↔ |code| ≤ 2348810) ∧
      (Int.testBit 0x800000 23 = false → Int.testBit 0x800000 22 = false → |v| ≤ Vref) :=
  ⟨by decide, by decide, get_value_range 0x800000 (by decide) (by decide)⟩

/-! ## The conversion sequencer -/

/-- One run of read_register when the bus can be acquired: the value returned and the world
left behind. -/
theorem read_register_run_ok (p : Platform) (self : MCP3553) (trace : List Call) (clock : Nat)
    (rx : List Nat) :
    (read_register p self).run
        { trace := trace, clock := clock, spi_begin_ok := true, rx := rx } =
      (Except.ok (assemble p (rx.getD 0 0 % 256) (rx.getD 1 0 % 256) (rx.getD 2 0 % 256)),
       { trace := trace ++ [Call.spi_end] ++ [Call.gpio_fsel self._ce_pin FSel.OUTP]
            ++ [Call.gpio_fsel MISO_PIN FSel.INPT]
            ++ [Call.gpio_write self._ce_pin Level.HIGH]
            ++ [Call.delayMicroseconds tCSHSD]
            ++ [Call.gpio_write self._ce_pin Level.LOW]
            ++ [Call.delayMicroseconds (self._tCONV / 2)]
            ++ [Call.gpio_write self._ce_pin Level.HIGH]
            ++ [Call.delayMicroseconds (self._tCONV / 2)]
            ++ [Call.spi_begin]
            ++ [Call.spi_setBitOrder BitOrder.MSBFIRST]
            ++ [Call.spi_setDataMode DataMode.MODE3]
            ++ [Call.spi_setClockDivider CLK_DIVIDER]
            ++ [Call.spi_chipSelect ChipSelect.CS_NONE]
            ++ [Call.peri_set_bits_spi0_cs 0 SPI0_CS_CSPOL]
            ++ [Call.gpio_fsel self._ce_pin FSel.OUTP]
            ++ [Call.gpio_write self._ce_pin Level.LOW]
            ++ [Call.spi_transfern 3]
            ++ [Call.gpio_write self._ce_pin Level.HIGH],
         clock := clock + tCSHSD + self._tCONV / 2 + self._tCONV / 2,
         spi_begin_ok := true,
         rx := rx.drop 3 }) :=
  rfl

/-- One run of read_register when the bus cannot be acquired: the error is thrown after the
conversion wait, before any transfer. -/
theorem read_register_run_fail (p : Platform) (self : MCP3553) (trace : List Call)
    (clock : Nat) (rx : List Nat) :
    (read_register p self).run
        { trace := trace, clock := clock, spi_begin_ok := false, rx := rx } =
      (Except.error Fault.runtime_error,
       { trace := trace ++ [Call.spi_end] ++ [Call.gpio_fsel self._ce_pin FSel.OUTP]
            ++ [Call.gpio_fsel MISO_PIN FSel.INPT]
            ++ [Call.gpio_write self._ce_pin Level.HIGH]
            ++ [Call.delayMicroseconds tCSHSD]
            ++ [Call.gpio_write self._ce_pin Level.LOW]
            ++ [Call.delayMicroseconds (self._tCONV / 2)]
            ++ [Call.gpio_write self._ce_pin Level.HIGH]
            ++ [Call.delayMicroseconds (self._tCONV / 2)]
            ++ [Call.spi_begin],
         clock := clock + tCSHSD + self._tCONV / 2 + self._tCONV / 2,
         spi_begin_ok := false,
         rx := rx }) :=
  rfl

/-- The instance get_value leaves the world exactly as its read_register run left it. -/
theorem get_value_read_world (p : Platform) (self : MCP3553) (w : World) :
    ((get_value_read p self).run w).2 = ((read_register p self).run w).2 := by
  obtain ⟨trace, clock, ok, rx⟩ := w
  cases ok
  · rfl
  · have h := read_register_run_ok p self trace clock rx
    rw [h]
    have hb : (get_value_read p self).run
          { trace := trace, clock := clock, spi_begin_ok := true, rx := rx } =
        ((match get_value (assemble p (rx.getD 0 0 % 256) (rx.getD 1 0 % 256)
            (rx.getD 2 0 % 256)) with
          | some v => (pure v : HwM ℚ)
          | none => throw Fault.undefined_behaviour).run
          ((read_register p self).run
            { trace := trace, clock := clock, spi_begin_ok := true, rx := rx }).2) := rfl
    rw [hb, h]
    cases get_value (assemble p (rx.getD 0 0 % 256) (rx.getD 1 0 % 256) (rx.getD 2 0 % 256))
    · rfl
    · rfl

/-- The calls of one read_register run when the bus can be acquired. -/
theorem read_register_calls_ok (p : Platform) (self : MCP3553) (w : World)
    (hok : w.spi_begin_ok = true) :
    calls (read_register p self) w =
      [Call.spi_end,
       Call.gpio_fsel self._ce_pin FSel.OUTP,
       Call.gpio_fsel MISO_PIN FSel.INPT,
       Call.gpio_write self._ce_pin Level.HIGH,
       Call.delayMicroseconds tCSHSD,
       Call.gpio_write self._ce_pin Level.LOW,
       Call.delayMicroseconds (self._tCONV / 2),
       Call.gpio_write self._ce_pin Level.HIGH,
       Call.delayMicroseconds (self._tCONV / 2),
       Call.spi_begin,
       Call.spi_setBitOrder BitOrder.MSBFIRST,
       Call.spi_setDataMode DataMode.MODE3,
       Call.spi_setClockDivider CLK_DIVIDER,
       Call.spi_chipSelect ChipSelect.CS_NONE,
       Call.peri_set_bits_spi0_cs 0 SPI0_CS_CSPOL,
       Call.gpio_fsel self._ce_pin FSel.OUTP,
       Call.gpio_write self._ce_pin Level.LOW,
       Call.spi_transfern 3,
       Call.gpio_write self._ce_pin Level.HIGH] := by
  obtain ⟨trace, clock, ok, rx⟩ := w
  simp only at hok
  subst hok
  unfold calls
  rw [read_register_run_ok]
  simp [List.append_assoc]

/-- The calls of one read_register run when the bus cannot be acquired. -/
theorem read_register_calls_fail (p : Platform) (self : MCP3553) (w : World)
    (hok : w.spi_begin_ok = false) :
    calls (read_register p self) w =
      [Call.spi_end,
       Call.gpio_fsel self._ce_pin FSel.OUTP,
       Call.gpio_fsel MISO_PIN FSel.INPT,
       Call.gpio_write self._ce_pin Level.HIGH,
       Call.delayMicroseconds tCSHSD,
       Call.gpio_write self._ce_pin Level.LOW,
       Call.delayMicroseconds (self._tCONV / 2),
       Call.gpio_write self._ce_pin Level.HIGH,
       Call.delayMicroseconds (self._tCONV / 2),
       Call.spi_begin] := by
  obtain ⟨trace, clock, ok, rx⟩ := w
  simp only at hok
  subst hok
  unfold calls
  rw [read_register_run_fail]
  simp [List.append_assoc]

/-- The delays requested in one read_register run, whether or not the bus is acquired. -/
theorem read_register_total_delay (p : Platform) (self : MCP3553) (w : World) :
    total_delay (calls (read_register p self) w) =
      tCSHSD + (self._tCONV / 2 + self._tCONV / 2) := by
  cases hok : w.spi_begin_ok
  · rw [read_register_calls_fail p self w hok]
    simp [total_delay]
  · rw [read_register_calls_ok p self w hok]
    simp [total_delay]

/-- The fake-clock time of one read_register run, whether or not the bus is acquired. -/
theorem read_register_elapsed (p : Platform) (self : MCP3553) (w : World) :
    elapsed (read_register p self) w = tCSHSD + self._tCONV / 2 + self._tCONV / 2 := by
  obtain ⟨trace, clock, ok, rx⟩ := w
  unfold elapsed
  cases ok
  · rw [read_register_run_fail]
    show clock + tCSHSD + self._tCONV / 2 + self._tCONV / 2 - clock = _
    omega
  · rw [read_register_run_ok]
    show clock + tCSHSD + self._tCONV / 2 + self._tCONV / 2 - clock = _
    omega

/-- For the three variants with an even conversion-time constant the delays of one run add up
to exactly tCONV + tCSHSD. -/
theorem read_register_elapsed_even_variants (p : Platform) (ce : Nat) (w : World) :
    elapsed (read_register p ⟨ce, select_tCONV IC.MCP3550_50⟩) w = tCONV_MCP3550_50 + tCSHSD ∧
    elapsed (read_register p ⟨ce, select_tCONV IC.MCP3550_60⟩) w = tCONV_MCP3550_60 + tCSHSD ∧
    elapsed (read_register p ⟨ce, select_tCONV IC.MCP3551⟩) w = tCONV_MCP3551 + tCSHSD := by
  simp only [read_register_elapsed]
  decide

/-- The instance get_value makes exactly the calls of its read_register run. -/
theorem get_value_read_calls (p : Platform) (self : MCP3553) (w : World) :
    calls (get_value_read p self) w = calls (read_register p self) w := by
  unfold calls
  rw [get_value_read_world]

/-- C7 fails for the MCP3553 variant: its constant 19455 is odd and each half-wait is the
truncated 19455 / 2 = 9727, so the two half-waits cover 19454 microseconds and the delays of
one get_value call total 19474, one short of tCONV + tCSHSD = 19475. -/
theorem read_register_delay_short_MCP3553 (p : Platform) (ce : Nat) (w : World) :
    total_delay (calls (get_value_read p ⟨ce, select_tCONV IC.MCP3553⟩) w) = 19474 ∧
    elapsed (get_value_read p ⟨ce, select_tCONV IC.MCP3553⟩) w = 19474 ∧
    elapsed (read_register p ⟨ce, select_tCONV IC.MCP3553⟩) w = 19474 ∧
    select_tCONV IC.MCP3553 / 2 + select_tCONV IC.MCP3553 / 2 = 19454 ∧
    select_tCONV IC.MCP3553 = 19455 ∧
    ¬ (select_tCONV IC.MCP3553 + tCSHSD ≤
        total_delay (calls (get_value_read p ⟨ce, select_tCONV IC.MCP3553⟩) w)) := by
  have h0 : total_delay (calls (get_value_read p ⟨ce, select_tCONV IC.MCP3553⟩) w) = 19474 := by
    rw [get_value_read_calls, read_register_total_delay]
    show tCSHSD + (select_tCONV IC.MCP3553 / 2 + select_tCONV IC.MCP3553 / 2) = 19474
    decide
  have h1 : elapsed (get_value_read p ⟨ce, select_tCONV IC.MCP3553⟩) w =
      elapsed (read_register p ⟨ce, select_tCONV IC.MCP3553⟩) w := by
    unfold elapsed
    rw [get_value_read_world]
  have h2 : elapsed (read_register p ⟨ce, select_tCONV IC.MCP3553⟩) w = 19474 := by
    rw [read_register_elapsed]
    show tCSHSD + select_tCONV IC.MCP3553 / 2 + select_tCONV IC.MCP3553 / 2 = 19474
    decide
  rw [h0, h1, h2]
  decide

/-! ## Register assembly -/

/-- With unsigned plain `char` the three bytes are assembled most significant first. -/
theorem assemble_unsigned (b0 b1 b2 : Nat) (h0 : b0 < 256) (h1 : b1 < 256) (h2 : b2 < 256) :
    assemble raspberryPi b0 b1 b2 = ((65536 * b0 + 256 * b1 + b2 : Nat) : Int) := by
  have e1 : int32.shl (b0 : Int) 16 = ((2 ^ 16 * b0 : Nat) : Int) := by
    unfold int32.shl
    push_cast
    ring
  have e2 : int32.shl (b1 : Int) 8 = ((256 * b1 : Nat) : Int) := by
    unfold int32.shl
    push_cast
    ring
  have o1 : 2 ^ 16 * b0 ||| 256 * b1 = 2 ^ 16 * b0 + 256 * b1 :=
    (Nat.mul_add_lt_is_or (by omega) b0).symm
  have o2 : 2 ^ 8 * (256 * b0 + b1) ||| b2 = 2 ^ 8 * (256 * b0 + b1) + b2 :=
    (Nat.mul_add_lt_is_or (by omega) _).symm
  have e3 : 2 ^ 16 * b0 + 256 * b1 = 2 ^ 8 * (256 * b0 + b1) := by ring
  have m1 : int32.to_uint32 ((2 ^ 8 * (256 * b0 + b1) : Nat) : Int) =
      ((2 ^ 8 * (256 * b0 + b1) : Nat) : Int) := by
    unfold int32.to_uint32
    omega
  have m2 : int32.to_uint32 (b2 : Int) = (b2 : Int) := by
    unfold int32.to_uint32
    omega
  unfold assemble char_value raspberryPi
  simp only [Bool.false_eq_true, false_and, if_false]
  rw [e1, e2, lor_natCast, o1, e3, m1, m2, lor_natCast, o2]
  unfold int32.of_uint32 int32.MAX
  rw [if_pos (by omega)]
  congr 1
  ring

/-- With signed plain `char` a received byte of 0x80 or more is sign-extended. -/
theorem assemble_signed_char_example :
    assemble { char_signed := true } 0 0 0x80 = -128 := by
  decide

/-- C9: for every triple of received bytes, read_register returns
(b0 << 16) | (b1 << 8) | b2 = 65536 * b0 + 256 * b1 + b2, a value in [0, 2^24), also when a
byte is 0x80 or more. Plain `char` is unsigned on the Raspberry Pi. -/
theorem read_register_assembles (self : MCP3553) (w : World) (b0 b1 b2 : Nat)
    (rest : List Nat) (h0 : b0 < 256) (h1 : b1 < 256) (h2 : b2 < 256)
    (hok : w.spi_begin_ok = true) (hrx : w.rx = b0 :: b1 :: b2 :: rest) :
    ((read_register raspberryPi self).run w).1 =
      Except.ok ((65536 * b0 + 256 * b1 + b2 : Nat) : Int) ∧
    65536 * b0 + 256 * b1 + b2 = (b0 <<< 16) ||| (b1 <<< 8) ||| b2 ∧
    65536 * b0 + 256 * b1 + b2 < 16777216 := by
  obtain ⟨trace, clock, ok, rx⟩ := w
  simp only at hok hrx
  subst hok hrx
  refine ⟨?_, ?_, by omega⟩
  · rw [read_register_run_ok]
    show Except.ok (assemble raspberryPi (b0 % 256) (b1 % 256) (b2 % 256)) = _
    rw [Nat.mod_eq_of_lt h0, Nat.mod_eq_of_lt h1, Nat.mod_eq_of_lt h2,
      assemble_unsigned b0 b1 b2 h0 h1 h2]
  · rw [Nat.shiftLeft_eq, Nat.shiftLeft_eq]
    have o1 : 2 ^ 16 * b0 ||| 2 ^ 8 * b1 = 2 ^ 16 * b0 + 2 ^ 8 * b1 :=
      (Nat.mul_add_lt_is_or (by omega) b0).symm
    have o2 : 2 ^ 8 * (256 * b0 + b1) ||| b2 = 2 ^ 8 * (256 * b0 + b1) + b2 :=
      (Nat.mul_add_lt_is_or (by omega) _).symm
    have e3 : 2 ^ 16 * b0 + 2 ^ 8 * b1 = 2 ^ 8 * (256 * b0 + b1) := by ring
    rw [Nat.mul_comm b0, Nat.mul_comm b1, o1, e3, o2]
    ring

/-- Witness for C9: the chip shifts out 0x9F, 0xFF, 0xFE. -/
theorem read_register_assembles_witness :
    ((read_register raspberryPi ⟨CE1_PIN, select_tCONV IC.MCP3553⟩).run
        { trace := [], clock := 0, spi_begin_ok := true, rx := [0x9F, 0xFF, 0xFE] }).1 =
      Except.ok ((65536 * 0x9F + 256 * 0xFF + 0xFE : Nat) : Int) ∧
    65536 * 0x9F + 256 * 0xFF + 0xFE = (0x9F <<< 16) ||| (0xFF <<< 8) ||| 0xFE ∧
    65536 * 0x9F + 256 * 0xFF + 0xFE < 16777216 :=
  read_register_assembles ⟨CE1_PIN, select_tCONV IC.MCP3553⟩
    { trace := [], clock := 0, spi_begin_ok := true, rx := [0x9F, 0xFF, 0xFE] }
    0x9F 0xFF 0xFE [] (by decide) (by decide) (by decide) rfl rfl

/-! ## Handshake order -/

/-- C10: when the bus is acquired, one read_register call makes its peripheral calls in
exactly this order: release the SPI bus; CE to output and MISO to input; CE high; delay
tCSHSD; CE low; delay tCONV/2; CE high; delay tCONV/2; begin SPI with MSB first, mode 3,
the clock divider, no automatic chip select (and CSPOL cleared); CE to output; CE low;
transfer 3 bytes; CE high. The call returns a value, makes exactly one transfer, makes it
with CE low and the SPI bus begun, and ends with CE high. -/
theorem read_register_handshake (p : Platform) (ce : Nat) (ic : IC) (w : World)
    (hok : w.spi_begin_ok = true) :
    calls (read_register p ⟨ce, select_tCONV ic⟩) w =
      [Call.spi_end,
       Call.gpio_fsel ce FSel.OUTP,
       Call.gpio_fsel MISO_PIN FSel.INPT,
       Call.gpio_write ce Level.HIGH,
       Call.delayMicroseconds tCSHSD,
       Call.gpio_write ce Level.LOW,
       Call.delayMicroseconds (select_tCONV ic / 2),
       Call.gpio_write ce Level.HIGH,
       Call.delayMicroseconds (select_tCONV ic / 2),
       Call.spi_begin,
       Call.spi_setBitOrder BitOrder.MSBFIRST,
       Call.spi_setDataMode DataMode.MODE3,
       Call.spi_setClockDivider CLK_DIVIDER,
       Call.spi_chipSelect ChipSelect.CS_NONE,
       Call.peri_set_bits_spi0_cs 0 SPI0_CS_CSPOL,
       Call.gpio_fsel ce FSel.OUTP,
       Call.gpio_write ce Level.LOW,
       Call.spi_transfern 3,
       Call.gpio_write ce Level.HIGH] ∧
    ((read_register p ⟨ce, select_tCONV ic⟩).run w).2.trace =
      w.trace ++ calls (read_register p ⟨ce, select_tCONV ic⟩) w ∧
    (∃ v, ((read_register p ⟨ce, select_tCONV ic⟩).run w).1 = Except.ok v) ∧
    transfer_count (calls (read_register p ⟨ce, select_tCONV ic⟩) w) = 1 ∧
    transfers_guarded ce none false (calls (read_register p ⟨ce, select_tCONV ic⟩) w) = true ∧
    level_after ce none (calls (read_register p ⟨ce, select_tCONV ic⟩) w) = some Level.HIGH := by
  have hc := read_register_calls_ok p ⟨ce, select_tCONV ic⟩ w hok
  simp only at hc
  rw [hc]
  refine ⟨rfl, ?_, ?_, ?_, ?_, ?_⟩
  · obtain ⟨trace, clock, ok, rx⟩ := w
    simp only at hok
    subst hok
    rw [read_register_run_ok]
    simp [List.append_assoc]
  · obtain ⟨trace, clock, ok, rx⟩ := w
    simp only at hok
    subst hok
    rw [read_register_run_ok]
    exact ⟨_, rfl⟩
  · simp [transfer_count]
  · simp [transfers_guarded]
  · simp [level_after]

/-- Witness for C10: the handle of the test, on CE1 with an MCP3553, in a fresh world. -/
theorem read_register_handshake_witness :
    transfer_count (calls (read_register raspberryPi ⟨CE1_PIN, select_tCONV IC.MCP3553⟩)
      { trace := [], clock := 0, spi_begin_ok := true, rx := [0x20, 0x00, 0x00] }) = 1 ∧
    level_after CE1_PIN none (calls (read_register raspberryPi ⟨CE1_PIN, select_tCONV IC.MCP3553⟩)
      { trace := [], clock := 0, spi_begin_ok := true, rx := [0x20, 0x00, 0x00] }) =
      some Level.HIGH :=
  ⟨(read_register_handshake raspberryPi CE1_PIN IC.MCP3553
      { trace := [], clock := 0, spi_begin_ok := true, rx := [0x20, 0x00, 0x00] } rfl).2.2.2.1,
   (read_register_handshake raspberryPi CE1_PIN IC.MCP3553
      { trace := [], clock := 0, spi_begin_ok := true, rx := [0x20, 0x00, 0x00] } rfl).2.2.2.2.2⟩

end MCP3553
